import Mathlib

/-!
Verification development for the C shipment-file processing pipeline
(backend/src/{parser.c, validator.c, server.c, db.c}).

The C code is shallowly embedded: byte buffers become `List Char`,
machine doubles become `ℚ` (exact decimal semantics; no claim below
depends on floating-point rounding), callbacks become event lists, and
the document store becomes a log of database operations driven by a
success oracle for the retry loops.  Every definition follows the
corresponding C function; libc helpers (`atoi`, `atof`, `isspace`,
`isalnum`, `tolower`, `strcasecmp`) are modelled on their C-locale ASCII
semantics.
-/

namespace Pipeline

/-! ## Character classification (ctype.h, C locale) -/

def isSpaceC (c : Char) : Bool :=
  c == ' ' || c == '\t' || c == '\n' || c == '\x0b' || c == '\x0c' || c == '\r'

def isDigitC (c : Char) : Bool :=
  decide (48 ≤ c.toNat ∧ c.toNat ≤ 57)

def isAlnumC (c : Char) : Bool :=
  isDigitC c || decide (65 ≤ c.toNat ∧ c.toNat ≤ 90) || decide (97 ≤ c.toNat ∧ c.toNat ≤ 122)

def toLowerC (c : Char) : Char :=
  if 65 ≤ c.toNat ∧ c.toNat ≤ 90 then Char.ofNat (c.toNat + 32) else c

def nulChar : Char := Char.ofNat 0

/-! ## libc numeric parsing (atoi / atof) -/

/-- Value of the leading run of decimal digits of `s` (0 when none). -/
def digitsVal (s : List Char) : Nat :=
  (s.takeWhile isDigitC).foldl (fun a c => a * 10 + (c.toNat - 48)) 0

/-- Model of C `atoi`: skip whitespace, optional sign, leading digits. -/
def atoiI (s : List Char) : Int :=
  let t := s.dropWhile isSpaceC
  match t with
  | '-' :: u => -(digitsVal u : Int)
  | '+' :: u => (digitsVal u : Int)
  | _ => (digitsVal t : Int)

def expVal (s : List Char) : Int :=
  match s with
  | '-' :: u => -(digitsVal u : Int)
  | '+' :: u => (digitsVal u : Int)
  | _ => (digitsVal s : Int)

/-- Model of C `atof` with exact rational semantics: optional sign,
integer part, optional fraction, optional decimal exponent. -/
def atofQ (s : List Char) : ℚ :=
  let t := s.dropWhile isSpaceC
  let sgn : ℚ := match t with | '-' :: _ => -1 | _ => 1
  let t1 : List Char := match t with | '-' :: u => u | '+' :: u => u | _ => t
  let ipart : Nat := digitsVal t1
  let t2 := t1.dropWhile isDigitC
  let fdigits : List Char := match t2 with | '.' :: u => u.takeWhile isDigitC | _ => []
  let t3 : List Char := match t2 with | '.' :: u => u.dropWhile isDigitC | _ => t2
  let ex : Int := match t3 with | 'e' :: u => expVal u | 'E' :: u => expVal u | _ => 0
  sgn * ((ipart : ℚ) + (digitsVal fdigits : ℚ) / (10 : ℚ) ^ fdigits.length) * (10 : ℚ) ^ ex

/-! ## Data model (common.h) -/

structure ShipmentRecord where
  tracking_number : List Char
  origin : List Char
  destination : List Char
  weight_kg : ℚ
  length_cm : ℚ
  width_cm : ℚ
  height_cm : ℚ
  ship_date : List Char
  status : List Char
  row_number : Nat
  batch_id : List Char
deriving DecidableEq

/-- The enumerated field names the validator writes into
`ValidationError.field` (string constants in validator.c). -/
inductive ErrField
  | tracking_number | origin | destination | weight_kg
  | length_cm | width_cm | height_cm | ship_date | status
deriving DecidableEq

/-- Validation error.  The human-readable `expected` strings of the C
struct carry no information beyond the field name and are omitted;
`actual` is the copied offending bytes (empty for the numeric fields,
where the C formats the double with printf). -/
structure ValidationError where
  row_number : Nat
  field : ErrField
  actual : List Char
  batch_id : List Char
deriving DecidableEq

inductive BatchStatusE
  | uploading | parsing | validating | inserting | complete | failed
deriving DecidableEq

structure BatchProgress where
  batch_id : List Char
  total_rows : Nat
  processed_rows : Nat
  valid_rows : Nat
  invalid_rows : Nat
  status : BatchStatusE
deriving DecidableEq

/-! ## Validator (validator.c) -/

def is_alphanumeric (s : List Char) : Bool := s.all isAlnumC

/-- C `%` on the nonnegative years reaching this check agrees with `Int.emod`. -/
def is_leap (y : Int) : Bool := (y % 4 == 0 && y % 100 != 0) || (y % 400 == 0)

/-- validator.c, `is_valid_iso8601_date` (lines 16-39). -/
def is_valid_iso8601_date (d : List Char) : Bool :=
  if d.length ≠ 10 then false
  else if ¬(d.get? 4 = some '-' ∧ d.get? 7 = some '-') then false
  else
    let year := atoiI d
    let month := atoiI (d.drop 5)
    let day := atoiI (d.drop 8)
    if year < 1900 ∨ year > 2100 then false
    else if month < 1 ∨ month > 12 then false
    else if day < 1 ∨ day > 31 then false
    else if month = 2 then
      decide (day ≤ (if is_leap year then 29 else 28))
    else if month = 4 ∨ month = 6 ∨ month = 9 ∨ month = 11 then
      decide (day ≤ 30)
    else true

def valid_statuses : List (List Char) :=
  [['p','e','n','d','i','n','g'],
   ['i','n','_','t','r','a','n','s','i','t'],
   ['d','e','l','i','v','e','r','e','d'],
   ['r','e','t','u','r','n','e','d'],
   ['l','o','s','t']]

/-- Model of `strcasecmp(a, b) == 0`. -/
def strcaseeq (a b : List Char) : Bool := a.map toLowerC == b.map toLowerC

def status_matches (s : List Char) : Bool := valid_statuses.any (fun v => strcaseeq s v)

/-- validator.c, `validate_record` (lines 41-141): first failing check
wins; returns `none` when the record is valid.  Note the status check is
guarded by `strlen(record->status) > 0`: an empty status skips it. -/
def validate_record (r : ShipmentRecord) : Option ValidationError :=
  let mk : ErrField → List Char → Option ValidationError :=
    fun f a => some ⟨r.row_number, f, a.take 1023, r.batch_id.take 36⟩
  if r.tracking_number.length < 10 ∨ 30 < r.tracking_number.length then
    mk ErrField.tracking_number r.tracking_number
  else if is_alphanumeric r.tracking_number = false then
    mk ErrField.tracking_number r.tracking_number
  else if r.origin.length = 0 then mk ErrField.origin []
  else if r.destination.length = 0 then mk ErrField.destination []
  else if r.weight_kg ≤ 0 then mk ErrField.weight_kg []
  else if r.length_cm < 0 then mk ErrField.length_cm []
  else if r.width_cm < 0 then mk ErrField.width_cm []
  else if r.height_cm < 0 then mk ErrField.height_cm []
  else if is_valid_iso8601_date r.ship_date = false then mk ErrField.ship_date r.ship_date
  else if 0 < r.status.length ∧ status_matches r.status = false then
    mk ErrField.status r.status
  else none

/-! ## Shipment document built by db_insert_records (db.c lines 80-97) -/

structure ShipmentDoc where
  batch_id : List Char
  tracking_number : List Char
  origin : List Char
  destination : List Char
  weight_kg : ℚ
  length_cm : ℚ
  width_cm : ℚ
  height_cm : ℚ
  ship_date : List Char
  status : List Char
  row_number : Nat
deriving DecidableEq

/-- db.c lines 80-97: the BSON document appended for one record.  Every
field, `status` included, is copied verbatim from the record
(`inserted_at` wall-clock time omitted). -/
def db_record_doc (batch_id : List Char) (r : ShipmentRecord) : ShipmentDoc :=
  ⟨batch_id, r.tracking_number, r.origin, r.destination, r.weight_kg,
   r.length_cm, r.width_cm, r.height_cm, r.ship_date, r.status, r.row_number⟩

/-! ## Parser (parser.c) -/

def MAX_LINE_LENGTH : Nat := 4096

structure ParserContext where
  buffer : List Char
  current_row : Nat
  in_quotes : Bool
  batch_id : List Char
deriving DecidableEq

/-- parser.c `parser_init`: zero the context, copy at most 36 bytes of
the batch id.  `in_quotes` is written by `memset` and never used again. -/
def parser_init (batch_id : List Char) : ParserContext :=
  ⟨[], 0, false, batch_id.take 36⟩

/-- The two structural-error messages `parser_process_chunk` can emit
(the C passes the string literals by pointer). -/
inductive ParseErrKind
  | lineTooLong
  | invalidFormat
deriving DecidableEq

/-- A parser emission: `on_record` or `on_error` callback invocation. -/
inductive PEvent
  | record (r : ShipmentRecord)
  | err (row : Nat) (kind : ParseErrKind)
deriving DecidableEq

/-- trim_whitespace (parser.c lines 20-28): drop leading and trailing
ASCII whitespace.  The head of the leading-trimmed string is non-space,
so right-trimming can never consume the whole remainder. -/
def trim_whitespace (s : List Char) : List Char :=
  let t := s.dropWhile isSpaceC
  (t.reverse.dropWhile isSpaceC).reverse

/-- The in-place quote-aware field splitter of `parse_csv_line`
(parser.c lines 41-76).  `sealed` models the state after the comma that
follows the 10th field: the 10th field has been NUL-terminated, so all
further writes land beyond its C string and are invisible. -/
def splitFieldsGo (sealed inQuote : Bool) (rest cur : List Char)
    (acc : List (List Char)) (fc : Nat) : List (List Char) :=
  match rest with
  | [] => acc ++ [cur]
  | '"' :: '"' :: r =>
      if inQuote then
        splitFieldsGo sealed inQuote r (if sealed then cur else cur ++ ['"']) acc fc
      else
        splitFieldsGo sealed true ('"' :: r) cur acc fc
  | '"' :: r =>
      splitFieldsGo sealed (¬inQuote) r cur acc fc
  | ',' :: r =>
      if inQuote then
        splitFieldsGo sealed inQuote r (if sealed then cur else cur ++ [',']) acc fc
      else if fc < 10 then
        splitFieldsGo sealed inQuote r [] (acc ++ [cur]) (fc + 1)
      else
        splitFieldsGo true inQuote r cur acc fc
  | c :: r =>
      splitFieldsGo sealed inQuote r (if sealed then cur else cur ++ [c]) acc fc

def parse_fields (line : List Char) : List (List Char) :=
  splitFieldsGo false false line [] [] 1

/-- parser.c `parse_csv_line` (lines 30-108).  Returns `none` on fewer
than 7 fields.  `row_number` and `batch_id` are set by the caller (the C
writes them into the record before calling `parse_csv_line`).  The
`strncpy` bounds of the C record arrays appear as `take`. -/
def parse_csv_line (line : List Char) : Option ShipmentRecord :=
  let fields := parse_fields line
  if fields.length < 7 then none
  else some
    { tracking_number := (trim_whitespace (fields.getD 0 [])).take 63
      origin := (trim_whitespace (fields.getD 1 [])).take 127
      destination := (trim_whitespace (fields.getD 2 [])).take 127
      weight_kg := atofQ (fields.getD 3 [])
      length_cm := if 4 < fields.length then atofQ (fields.getD 4 []) else 0
      width_cm := if 5 < fields.length then atofQ (fields.getD 5 []) else 0
      height_cm := if 6 < fields.length then atofQ (fields.getD 6 []) else 0
      ship_date := if 8 ≤ fields.length then (trim_whitespace (fields.getD 7 [])).take 31
                   else (trim_whitespace (fields.getD 4 [])).take 31
      status := if 9 ≤ fields.length then (trim_whitespace (fields.getD 8 [])).take 31 else []
      row_number := 0
      batch_id := [] }

/-- Strip the just-appended `'\x0a'` terminator and an optional
preceding `'\x0d'` (parser.c lines 185-193). -/
def stripEOL (buf : List Char) : List Char :=
  if buf.getLast? = some '\n' then
    let b1 := buf.dropLast
    if b1.getLast? = some '\r' then b1.dropLast else b1
  else buf

/-- One iteration of the byte loop of `parser_process_chunk`
(parser.c lines 112-217).  All state lives in the context, so the
function is independent of chunk boundaries by construction. -/
def processByte (s : ParserContext) (c : Char) : ParserContext × List PEvent :=
  if s.buffer.length < MAX_LINE_LENGTH - 1 then
    let buf := s.buffer ++ [c]
    if c = '\n' ∧ (buf.count '"') % 2 = 0 then
      let line := stripEOL buf
      let row := s.current_row + 1
      let eff := line.takeWhile (fun ch => ch ≠ nulChar)
      if eff.length ≠ 0 then
        match parse_csv_line eff with
        | some r =>
            ({ s with buffer := [], current_row := row },
             [PEvent.record { r with row_number := row, batch_id := s.batch_id }])
        | none =>
            ({ s with buffer := [], current_row := row },
             [PEvent.err row ParseErrKind.invalidFormat])
      else ({ s with buffer := [], current_row := row }, [])
    else ({ s with buffer := buf }, [])
  else
    ({ s with buffer := [] }, [PEvent.err s.current_row ParseErrKind.lineTooLong])

/-- parser.c `parser_process_chunk`: the per-byte loop over one chunk. -/
def parser_process_chunk (s : ParserContext) : List Char → ParserContext × List PEvent
  | [] => (s, [])
  | c :: rest =>
      let p1 := processByte s c
      let p2 := parser_process_chunk p1.1 rest
      (p2.1, p1.2 ++ p2.2)

/-- parser.c `parser_finalize` (lines 220-227): the body only tests
`buffer_len > 0` and contains no executable statement, so the function
changes nothing and emits nothing. -/
def parser_finalize (s : ParserContext) : ParserContext × List PEvent := (s, [])

/-- Feed a sequence of chunks (repeated `parser_process_chunk` calls). -/
def parser_feed_chunks (s : ParserContext) : List (List Char) → ParserContext × List PEvent
  | [] => (s, [])
  | ch :: rest =>
      let p1 := parser_process_chunk s ch
      let p2 := parser_feed_chunks p1.1 rest
      (p2.1, p1.2 ++ p2.2)

/-- A whole upload stream: init, feed every chunk, finalize. -/
def parser_run_stream (batch : List Char) (chunks : List (List Char)) :
    ParserContext × List PEvent :=
  let p1 := parser_feed_chunks (parser_init batch) chunks
  let p2 := parser_finalize p1.1
  (p2.1, p1.2 ++ p2.2)

/-- Row numbers of the emitted records, in emission order. -/
def recordRows (evs : List PEvent) : List Nat :=
  evs.filterMap (fun e => match e with
    | PEvent.record r => some r.row_number
    | PEvent.err _ _ => none)

/-- Row number and tracking number of each emitted record, in order. -/
def recordRowTracks (evs : List PEvent) : List (Nat × List Char) :=
  evs.filterMap (fun e => match e with
    | PEvent.record r => some (r.row_number, r.tracking_number)
    | PEvent.err _ _ => none)

/-! ## Server upload pipeline (server.c) -/

/-- A logged document-store operation (db.c side effects). -/
inductive DbOp
  | insertRecords (docs : List ShipmentDoc) (ok : Bool)
  | insertErrors (errs : List ValidationError) (ok : Bool)
  | upsertProgress (p : BatchProgress)
deriving DecidableEq

/-- Success oracle for the bulk-execute retry loops: `recInsertOk n`
(resp. `errInsertOk n`) is whether the `n`-th
`mongoc_bulk_operation_execute` of a record (error) flush succeeds. -/
structure DbEnv where
  recInsertOk : Nat → Bool
  errInsertOk : Nat → Bool

/-- The retry loop of db.c (lines 103-119 and 166-182): up to 5
attempts, exponential sleeps; the observable result is whether any of
the first five executes succeeds. -/
def db_insert_succeeds (execOk : Nat → Bool) : Bool :=
  (List.range 5).any execOk

/-- db.c `db_insert_records`: build one document per record, retry the
bulk execute up to 5 times, return 0 on success and -1 after
exhaustion.  `count == 0` returns 0 with no store traffic. -/
def db_insert_records (env : DbEnv) (batch : List Char) (records : List ShipmentRecord) :
    Int × List DbOp :=
  if records.length = 0 then (0, [])
  else
    let ok := db_insert_succeeds env.recInsertOk
    (if ok then 0 else -1, [DbOp.insertRecords (records.map (db_record_doc batch)) ok])

/-- db.c `db_insert_errors`, same retry shape. -/
def db_insert_errors (env : DbEnv) (errs : List ValidationError) : Int × List DbOp :=
  if errs.length = 0 then (0, [])
  else
    let ok := db_insert_succeeds env.errInsertOk
    (if ok then 0 else -1, [DbOp.insertErrors errs ok])

/-- server.c `struct RequestContext` (lines 12-22). -/
structure RequestContext where
  parser : ParserContext
  batch_id : List Char
  status_code : Nat
  record_batch : List ShipmentRecord
  error_batch : List ValidationError
  progress : BatchProgress
deriving DecidableEq

/-- server.c `flush_batches` (lines 45-69): insert pending records and
errors (the insert return values are only printed, never acted on),
clear both buffers, then upsert the current progress snapshot. -/
def flush_batches (env : DbEnv) (ctx : RequestContext) : RequestContext × List DbOp :=
  let p1 :=
    if 0 < ctx.record_batch.length then
      let ins := db_insert_records env ctx.batch_id ctx.record_batch
      ({ ctx with record_batch := [] }, ins.2)
    else (ctx, ([] : List DbOp))
  let p2 :=
    if 0 < p1.1.error_batch.length then
      let ins := db_insert_errors env p1.1.error_batch
      ({ p1.1 with error_batch := [] }, ins.2)
    else (p1.1, ([] : List DbOp))
  (p2.1, p1.2 ++ p2.2 ++ [DbOp.upsertProgress p2.1.progress])

/-- server.c `on_record_parsed` (lines 72-98): bump total and
processed, validate, bump exactly one of valid/invalid and buffer the
record or the error, flush when a buffer reaches 500. -/
def on_record_parsed (env : DbEnv) (r : ShipmentRecord) (ctx : RequestContext) :
    RequestContext × List DbOp :=
  let p := ctx.progress
  let p := { p with total_rows := p.total_rows + 1, processed_rows := p.processed_rows + 1 }
  let ctx1 : RequestContext :=
    match validate_record r with
    | none =>
        { ctx with progress := { p with valid_rows := p.valid_rows + 1 },
                   record_batch := ctx.record_batch ++ [r] }
    | some e =>
        { ctx with progress := { p with invalid_rows := p.invalid_rows + 1 },
                   error_batch := ctx.error_batch ++ [e] }
  if 500 ≤ ctx1.record_batch.length ∨ 500 ≤ ctx1.error_batch.length then
    flush_batches env ctx1
  else (ctx1, [])

/-- server.c `on_parser_error` (lines 100-107): the only effect is
writing 400 into `ctx->status_code`, a field no response path reads.
No error is recorded, no counter is touched, parsing continues. -/
def on_parser_error (_row : Nat) (_kind : ParseErrKind) (ctx : RequestContext) :
    RequestContext :=
  { ctx with status_code := 400 }

/-- Dispatch the parser callback emissions in order. -/
def apply_parser_events (env : DbEnv) (ctx : RequestContext) :
    List PEvent → RequestContext × List DbOp
  | [] => (ctx, [])
  | PEvent.record r :: rest =>
      let p1 := on_record_parsed env r ctx
      let p2 := apply_parser_events env p1.1 rest
      (p2.1, p1.2 ++ p2.2)
  | PEvent.err row kind :: rest =>
      apply_parser_events env (on_parser_error row kind ctx) rest

/-- One upload chunk (server.c lines 183-188): set status to parsing,
run the parser over the bytes, dispatch the emissions. -/
def server_process_chunk (env : DbEnv) (ctx : RequestContext) (chunk : List Char) :
    RequestContext × List DbOp :=
  let ctx1 := { ctx with progress := { ctx.progress with status := BatchStatusE.parsing } }
  let pr := parser_process_chunk ctx1.parser chunk
  apply_parser_events env { ctx1 with parser := pr.1 } pr.2

def server_process_chunks (env : DbEnv) (ctx : RequestContext) :
    List (List Char) → RequestContext × List DbOp
  | [] => (ctx, [])
  | ch :: rest =>
      let p1 := server_process_chunk env ctx ch
      let p2 := server_process_chunks env p1.1 rest
      (p2.1, p1.2 ++ p2.2)

/-- Upload start (server.c lines 148-172): fresh zeroed context, status
`uploading`, initial progress upsert. -/
def upload_init (batch : List Char) : RequestContext × List DbOp :=
  let p : BatchProgress := ⟨batch.take 36, 0, 0, 0, 0, BatchStatusE.uploading⟩
  (⟨parser_init batch, batch.take 36, 0, [], [], p⟩, [DbOp.upsertProgress p])

/-- End of upload (server.c lines 189-206): finalize the parser, set
status to `complete` BEFORE the final flush, flush, and always queue an
HTTP 200 response carrying the batch id. -/
def upload_finish (env : DbEnv) (ctx : RequestContext) :
    RequestContext × List DbOp × Nat :=
  let pf := parser_finalize ctx.parser
  let p1 := apply_parser_events env { ctx with parser := pf.1 } pf.2
  let ctx2 := { p1.1 with progress := { p1.1.progress with status := BatchStatusE.complete } }
  let p2 := flush_batches env ctx2
  (p2.1, p1.2 ++ p2.2, 200)

/-- A whole upload request: init, all chunks, finish. -/
def upload_run (env : DbEnv) (batch : List Char) (chunks : List (List Char)) :
    RequestContext × List DbOp × Nat :=
  let s0 := upload_init batch
  let s1 := server_process_chunks env s0.1 chunks
  let s2 := upload_finish env s1.1
  (s2.1, s0.2 ++ s1.2 ++ s2.2.1, s2.2.2)

/-- Progress statuses carried by the upsert operations of a log. -/
def upsertStatuses (ops : List DbOp) : List BatchStatusE :=
  ops.filterMap (fun o => match o with
    | DbOp.upsertProgress p => some p.status
    | _ => none)

/-- Success flags of the record-insert operations of a log. -/
def recInsertResults (ops : List DbOp) : List Bool :=
  ops.filterMap (fun o => match o with
    | DbOp.insertRecords _ ok => some ok
    | _ => none)

/-- The error-insert operations of a log. -/
def errInsertOps (ops : List DbOp) : List DbOp :=
  ops.filter (fun o => match o with
    | DbOp.insertErrors _ _ => true
    | _ => false)

/-! ## Export reader (db.c lines 588-761) -/

/-- db.c `struct ExportContext`.  `docs` is the remaining result cursor:
each entry is the byte rendering `bson_as_relaxed_extended_json`
produces for one stored document — db.c line 668 applies that one
renderer in BOTH modes, `is_csv` included.  `pending` is the overflow
buffer with its write offset. -/
structure ExportState where
  docs : List (List Char)
  pending : Option (List Char × Nat)
  is_csv : Bool
  first_record : Bool
  finished : Bool
  footer_processed : Bool
deriving DecidableEq

/-- db.c `db_open_export_cursor` (lines 603-625). -/
def db_open_export_cursor (is_csv : Bool) (docs : List (List Char)) : ExportState :=
  ⟨docs, none, is_csv, true, false, false⟩

structure LoopOut where
  out : List Char
  docs : List (List Char)
  pending : Option (List Char × Nat)
  first_record : Bool
  finished : Bool
  footer_processed : Bool
deriving DecidableEq

/-- The `while (written < max)` cursor loop of `db_read_export_chunk`
(db.c lines 665-745), entered with the overflow buffer empty. -/
def exportLoop (is_csv : Bool) (max : Nat) :
    List (List Char) → Bool → Bool → List Char → LoopOut
  | docs, first_record, footer_processed, out =>
    if out.length < max then
      match docs with
      | d :: rest =>
          let chunk :=
            (if is_csv = false ∧ first_record = false then [','] else []) ++ d ++
              (if is_csv then ['\n'] else [])
          if out.length + chunk.length ≤ max then
            exportLoop is_csv max rest false footer_processed (out ++ chunk)
          else
            ⟨out ++ chunk.take (max - out.length), rest,
              some (chunk, max - out.length), false, false, footer_processed⟩
      | [] =>
          if is_csv = false then
            if footer_processed = false then
              if out.length < max then
                ⟨out ++ [']'], [], none, first_record, true, true⟩
              else
                ⟨out, [], some ([']'], 0), first_record, false, true⟩
            else ⟨out, [], none, first_record, true, true⟩
          else ⟨out, [], none, first_record, true, footer_processed⟩
    else ⟨out, docs, none, first_record, false, footer_processed⟩

def applyLoop (s : ExportState) (r : LoopOut) : ExportState :=
  { s with docs := r.docs, pending := r.pending, first_record := r.first_record,
           finished := r.finished, footer_processed := r.footer_processed }

/-- db.c `db_read_export_chunk` (lines 628-752).  `none` models the -1
end-of-stream sentinel.  Note the `'['` header is written whenever
`first_record` is still set (the flag only clears when a document is
pulled), and the overflow buffer is drained before the cursor loop. -/
def db_read_export_chunk (s : ExportState) (max : Nat) :
    Option (List Char) × ExportState :=
  if s.finished then (none, s)
  else
    let out0 : List Char :=
      if s.is_csv = false ∧ s.first_record = true ∧ 0 < max then ['['] else []
    match s.pending with
    | some (p, off) =>
        if p.length - off ≤ max - out0.length then
          let r := exportLoop s.is_csv max s.docs s.first_record s.footer_processed
            (out0 ++ p.drop off)
          (some r.out, applyLoop s r)
        else
          (some (out0 ++ (p.drop off).take (max - out0.length)),
           { s with pending := some (p, off + (max - out0.length)) })
    | none =>
        let r := exportLoop s.is_csv max s.docs s.first_record s.footer_processed out0
        (some r.out, applyLoop s r)

/-- Repeated `read` calls with the given buffer sizes; stops early at
the end-of-stream sentinel (as microhttpd does). -/
def runReads (s : ExportState) : List Nat → List (List Char) × ExportState
  | [] => ([], s)
  | m :: ms =>
      match db_read_export_chunk s m with
      | (none, s1) => ([], s1)
      | (some c, s1) =>
          let p := runReads s1 ms
          (c :: p.1, p.2)

/-- JSON body of a document list: first document bare, the rest
comma-prefixed. -/
def jsonBody : List (List Char) → List Char
  | [] => []
  | d :: rest => d ++ (rest.map (fun x => ',' :: x)).flatten

/-- The canonical single-buffer rendering of the export stream (spec
§4.6 invariant): one `'['`, the comma-separated documents, one `']'`
for JSON; each document terminated by a line feed for CSV. -/
def canonicalExport (is_csv : Bool) (docs : List (List Char)) : List Char :=
  if is_csv then (docs.map (fun d => d ++ ['\n'])).flatten
  else ['['] ++ jsonBody docs ++ [']']

/-! ## Spec-side reference definitions (used to state amended claims) -/

/-- Days of a month under the Gregorian rules (spec wording). -/
def daysInMonth (y m : Int) : Int :=
  if m = 2 then (if is_leap y then 29 else 28)
  else if m = 4 ∨ m = 6 ∨ m = 9 ∨ m = 11 then 30 else 31

/-- A calendar-valid (year, month, day) triple, leap years included. -/
abbrev calendar_valid (y m d : Int) : Prop :=
  1 ≤ m ∧ m ≤ 12 ∧ 1 ≤ d ∧ d ≤ daysInMonth y m

/-- Amended acceptance condition for `ship_date`: ten bytes, a dash at
offsets 4 and 7, and the `atoi`-extracted year/month/day calendar-valid
with the year restricted to 1900..2100. -/
abbrev dateAcceptedAmended (d : List Char) : Prop :=
  d.length = 10 ∧ d.get? 4 = some '-' ∧ d.get? 7 = some '-' ∧
  1900 ≤ atoiI d ∧ atoiI d ≤ 2100 ∧
  calendar_valid (atoiI d) (atoiI (d.drop 5)) (atoiI (d.drop 8))

/-- Amended acceptance condition for `status`: empty, or its lowercased
form is one of the five enumerated statuses. -/
abbrev statusAcceptedAmended (s : List Char) : Prop :=
  s = [] ∨ s.map toLowerC ∈ valid_statuses

/-- The checks of validator.c that precede the status check, bundled
as one hypothesis ("the record reaches the status check"). -/
abbrev earlier_checks_pass (r : ShipmentRecord) : Prop :=
  10 ≤ r.tracking_number.length ∧ r.tracking_number.length ≤ 30 ∧
  is_alphanumeric r.tracking_number = true ∧
  r.origin ≠ [] ∧ r.destination ≠ [] ∧
  0 < r.weight_kg ∧ 0 ≤ r.length_cm ∧ 0 ≤ r.width_cm ∧ 0 ≤ r.height_cm ∧
  is_valid_iso8601_date r.ship_date = true

/-! ## Concrete inputs used by witnesses and counterexamples -/

def trackChars : List Char := ['T','R','A','C','K','1','2','3','4','5']

def dateOkChars : List Char := ['2','0','2','4','-','0','1','-','0','2']

def pendingChars : List Char := ['p','e','n','d','i','n','g']

/-- A record the validator accepts. -/
def goodRec : ShipmentRecord :=
  ⟨trackChars, ['N'], ['L'], 1, 0, 0, 0, dateOkChars, pendingChars, 1, []⟩

/-- First logical line of the counterexample stream for C2: nine
single-character columns, i.e. a header-shaped row. -/
def hdrLine : List Char :=
  ['t',',','o',',','d',',','1',',','2',',','3',',','4',',',
   '2','0','2','4','-','0','1','-','0','2',',','p','e','n','d','i','n','g','\n']

/-- A well-formed data row (newline-terminated). -/
def dataLine : List Char :=
  ['T','R','A','C','K','1','2','3','4','5',',','N','Y','C',',','L','A',',',
   '1','.','5',',','1',',','2',',','3',',',
   '2','0','2','4','-','0','1','-','0','2',',','p','e','n','d','i','n','g','\n']

/-- The same data row without its trailing newline. -/
def dataLineNoNL : List Char := dataLine.dropLast

/-- A structurally broken row: one column only. -/
def badLine : List Char := ['b','a','d','\n']

end Pipeline

namespace Pipeline

/-! ## Helper lemmas: parser -/

theorem parser_process_chunk_append (s : ParserContext) (a b : List Char) :
    parser_process_chunk s (a ++ b) =
      ((parser_process_chunk (parser_process_chunk s a).1 b).1,
       (parser_process_chunk s a).2 ++ (parser_process_chunk (parser_process_chunk s a).1 b).2) := by
  induction a generalizing s with
  | nil => simp [parser_process_chunk]
  | cons c rest ih => simp [parser_process_chunk, ih]

theorem parser_feed_chunks_eq_flatten (s : ParserContext) (chunks : List (List Char)) :
    parser_feed_chunks s chunks = parser_process_chunk s chunks.flatten := by
  induction chunks generalizing s with
  | nil => simp [parser_feed_chunks, parser_process_chunk]
  | cons ch rest ih => simp [parser_feed_chunks, ih, parser_process_chunk_append]

theorem recordRows_append (a b : List PEvent) :
    recordRows (a ++ b) = recordRows a ++ recordRows b := by
  simp [recordRows]

theorem pairwise_of_length_le_one {l : List Nat} (h : l.length ≤ 1) :
    l.Pairwise (· < ·) := by
  match l with
  | [] => exact List.Pairwise.nil
  | [a] => simp
  | a :: b :: t => simp at h

theorem processByte_rows (s : ParserContext) (c : Char) :
    s.current_row ≤ (processByte s c).1.current_row ∧
    (∀ n ∈ recordRows (processByte s c).2,
       s.current_row < n ∧ n ≤ (processByte s c).1.current_row) ∧
    (recordRows (processByte s c).2).length ≤ 1 := by
  unfold processByte
  by_cases h1 : s.buffer.length < MAX_LINE_LENGTH - 1
  · simp only [if_pos h1]
    by_cases h2 : c = '\n' ∧ ((s.buffer ++ [c]).count '"') % 2 = 0
    · simp only [if_pos h2]
      by_cases h3 :
          ((stripEOL (s.buffer ++ [c])).takeWhile (fun ch => ch ≠ nulChar)).length ≠ 0
      · simp only [if_pos h3]
        cases hp : parse_csv_line ((stripEOL (s.buffer ++ [c])).takeWhile (fun ch => ch ≠ nulChar)) with
        | some r => simp [recordRows]
        | none => simp [recordRows]
      · simp only [if_neg h3]; simp [recordRows]
    · simp only [if_neg h2]; simp [recordRows]
  · simp only [if_neg h1]; simp [recordRows]

theorem parser_process_chunk_rows (bytes : List Char) :
    ∀ s : ParserContext,
      s.current_row ≤ (parser_process_chunk s bytes).1.current_row ∧
      (∀ n ∈ recordRows (parser_process_chunk s bytes).2,
         s.current_row < n ∧ n ≤ (parser_process_chunk s bytes).1.current_row) ∧
      (recordRows (parser_process_chunk s bytes).2).Pairwise (· < ·) := by
  induction bytes with
  | nil => intro s; simp [parser_process_chunk, recordRows]
  | cons c rest ih =>
    intro s
    have hb := processByte_rows s c
    have hih := ih (processByte s c).1
    have hsplit : parser_process_chunk s (c :: rest) =
        ((parser_process_chunk (processByte s c).1 rest).1,
         (processByte s c).2 ++ (parser_process_chunk (processByte s c).1 rest).2) := by
      simp [parser_process_chunk]
    rw [hsplit]
    refine ⟨le_trans hb.1 hih.1, ?_, ?_⟩
    · intro n hn
      rw [recordRows_append, List.mem_append] at hn
      rcases hn with h | h
      · exact ⟨(hb.2.1 n h).1, le_trans (hb.2.1 n h).2 hih.1⟩
      · exact ⟨lt_of_le_of_lt hb.1 (hih.2.1 n h).1, (hih.2.1 n h).2⟩
    · rw [recordRows_append, List.pairwise_append]
      refine ⟨pairwise_of_length_le_one hb.2.2, hih.2.2, ?_⟩
      intro x hx y hy
      exact lt_of_le_of_lt (hb.2.1 x hx).2 (hih.2.1 y hy).1

/-! ## C8: chunking invariance of the parser -/

/-- C8 (confirmed, proved for ALL byte sequences, which subsumes the
valid-RFC-4180 ones): feeding any decomposition of a byte stream into
consecutive chunks, followed by `finalize`, produces exactly the same
parser state and the same sequence of records and structural errors as
feeding the whole stream as a single chunk followed by `finalize`. -/
theorem c8_chunking_invariance (batch : List Char) (chunks : List (List Char)) :
    parser_run_stream batch chunks = parser_run_stream batch [chunks.flatten] := by
  simp [parser_run_stream, parser_feed_chunks_eq_flatten, parser_feed_chunks,
    parser_finalize, parser_process_chunk_append]

/-! ## C2: row numbering -/

/-- C2 counterexample: on a stream whose first logical line is a
header-shaped row, the parser emits that first line as an ordinary data
record with `row_number = 1` (the claim requires it to get row 0 and to
be suppressed), and the following data row gets `row_number = 2`. -/
theorem c2_counterexample :
    recordRowTracks (parser_run_stream [] [hdrLine ++ dataLine]).2 =
      [(1, ['t']), (2, trackChars)] := by decide

/-- C2 (amended): the parser has no header handling — the first
completed logical line is emitted like any other — and every emitted
record has `row_number ≥ 1`, with row numbers strictly increasing in
emission order and therefore distinct within the batch. -/
theorem c2_amended_rows (batch : List Char) (chunks : List (List Char)) :
    (∀ n ∈ recordRows (parser_run_stream batch chunks).2, 1 ≤ n) ∧
    (recordRows (parser_run_stream batch chunks).2).Pairwise (· < ·) ∧
    (recordRows (parser_run_stream batch chunks).2).Nodup := by
  have h := parser_process_chunk_rows chunks.flatten (parser_init batch)
  have hev : (parser_run_stream batch chunks).2 =
      (parser_process_chunk (parser_init batch) chunks.flatten).2 := by
    simp [parser_run_stream, parser_feed_chunks_eq_flatten, parser_finalize]
  rw [hev]
  refine ⟨?_, h.2.2, ?_⟩
  · intro n hn
    have := (h.2.1 n hn).1
    simpa [parser_init] using this
  · exact List.Pairwise.imp (fun hab => Nat.ne_of_lt hab) h.2.2

/-! ## C5: finalize drops the unterminated last record -/

/-- C5 (code bug): `parser_finalize` is a no-op — parser.c's body only
tests `buffer_len > 0`, against its own header comment "Process any
remaining buffer".  Concretely, for a stream whose last, fully valid
record lacks a trailing newline, the run emits only the first row and
leaves the entire last record sitting unprocessed in the carry-over
buffer. -/
theorem c5_finalize_noop :
    (∀ s : ParserContext, parser_finalize s = (s, [])) ∧
    recordRows (parser_run_stream [] [hdrLine ++ dataLineNoNL]).2 = [1] ∧
    (parser_run_stream [] [hdrLine ++ dataLineNoNL]).1.buffer = dataLineNoNL :=
  ⟨fun _ => rfl, by decide, by decide⟩

/-! ## C9: ship_date validation -/

def dateLeapChars : List Char := ['2','0','2','4','-','0','2','-','2','9']

def dateNoLeapChars : List Char := ['2','0','2','3','-','0','2','-','2','9']

def dateOldChars : List Char := ['1','8','4','4','-','0','5','-','0','1']

/-- A record that is valid except for the 2023-02-29 ship date. -/
def rec2023Feb29 : ShipmentRecord :=
  ⟨trackChars, ['N'], ['L'], 1, 0, 0, 0, dateNoLeapChars, pendingChars, 1, []⟩

/-- C9 counterexample: 1844-05-01 is a calendar-valid YYYY-MM-DD date,
yet `is_valid_iso8601_date` rejects it (the code restricts years to
1900..2100), refuting "every calendar-valid YYYY-MM-DD date is
accepted". -/
theorem c9_counterexample :
    calendar_valid 1844 5 1 ∧ is_valid_iso8601_date dateOldChars = false :=
  ⟨by decide, by decide⟩

theorem c9_date_characterization (d : List Char) :
    is_valid_iso8601_date d = true ↔ dateAcceptedAmended d := by
  simp only [is_valid_iso8601_date, dateAcceptedAmended, calendar_valid, daysInMonth]
  split_ifs <;> simp_all <;> omega

/-- C9 (amended): the code accepts `ship_date` iff it has exactly ten
bytes with a dash at offsets 4 and 7 and the `atoi`-extracted year,
month and day satisfy 1900 ≤ year ≤ 2100 and are calendar-valid with
leap-year rules (digits are NOT verified and years outside 1900..2100
are rejected).  The claim's concrete leap-day cases do hold: 2024-02-29
is accepted and 2023-02-29 is rejected with field `ship_date`. -/
theorem c9_amended_date :
    (∀ d, is_valid_iso8601_date d = true ↔ dateAcceptedAmended d) ∧
    is_valid_iso8601_date dateLeapChars = true ∧
    is_valid_iso8601_date dateNoLeapChars = false ∧
    Option.map (fun e => e.field) (validate_record rec2023Feb29) = some ErrField.ship_date :=
  ⟨c9_date_characterization, by decide, by decide, by decide⟩

/-! ## C6: status validation and storage -/

theorem status_matches_iff (s : List Char) :
    status_matches s = true ↔ s.map toLowerC ∈ valid_statuses := by
  constructor
  · intro h
    rw [status_matches, List.any_eq_true] at h
    obtain ⟨v, hv, he⟩ := h
    have he' : s.map toLowerC = v.map toLowerC := by
      simpa [strcaseeq] using he
    have hv' := hv
    simp only [valid_statuses, List.mem_cons, List.not_mem_nil, or_false] at hv'
    have hfix : v.map toLowerC = v := by
      rcases hv' with h' | h' | h' | h' | h' <;> rw [h'] <;> decide
    rw [he', hfix]
    exact hv
  · intro hm
    rw [status_matches, List.any_eq_true]
    refine ⟨s.map toLowerC, hm, ?_⟩
    have hm' := hm
    simp only [valid_statuses, List.mem_cons, List.not_mem_nil, or_false] at hm'
    have hfix : (s.map toLowerC).map toLowerC = s.map toLowerC := by
      rcases hm' with h' | h' | h' | h' | h' <;> rw [h'] <;> decide
    simp [strcaseeq, hfix]

/-- A record valid in every field, with an empty status. -/
def emptyStatusRec : ShipmentRecord :=
  ⟨trackChars, ['N'], ['L'], 1, 0, 0, 0, dateOkChars, [], 1, []⟩

/-- A record valid in every field, with status bytes `PENDING`. -/
def upperStatusRec : ShipmentRecord :=
  ⟨trackChars, ['N'], ['L'], 1, 0, 0, 0, dateOkChars,
   ['P','E','N','D','I','N','G'], 1, []⟩

/-- C6 counterexample: a record with an EMPTY status passes
`validate_record` (the claim requires empty status to be rejected), and
an accepted record with status `PENDING` is handed to the store with
its original upper-case bytes — `db_insert_records` copies
`record->status` verbatim, there is no lowercasing anywhere. -/
theorem c6_counterexample :
    validate_record emptyStatusRec = none ∧
    validate_record upperStatusRec = none ∧
    (db_record_doc [] upperStatusRec).status = ['P','E','N','D','I','N','G'] :=
  ⟨by decide, by decide, rfl⟩

/-- C6 (amended): for a record that reaches the status check,
validation succeeds iff the status is EMPTY or case-insensitively
matches one of {pending, in_transit, delivered, returned, lost}; and
the value stored for an accepted record is the status exactly as
parsed, not its lowercased form. -/
theorem c6_amended (r : ShipmentRecord) (h : earlier_checks_pass r) :
    (validate_record r = none ↔ statusAcceptedAmended r.status) ∧
    (∀ b, (db_record_doc b r).status = r.status) := by
  obtain ⟨h1, h1b, h2, h3, h4, h5, h6, h7, h8, h9⟩ := h
  have c1 : ¬(r.tracking_number.length < 10 ∨ 30 < r.tracking_number.length) := by omega
  have c2 : ¬(is_alphanumeric r.tracking_number = false) := by simp [h2]
  have c3 : ¬(r.origin.length = 0) := fun hh => h3 (by simpa using hh)
  have c4 : ¬(r.destination.length = 0) := fun hh => h4 (by simpa using hh)
  have c5 : ¬(r.weight_kg ≤ 0) := not_le.mpr h5
  have c6a : ¬(r.length_cm < 0) := not_lt.mpr h6
  have c7a : ¬(r.width_cm < 0) := not_lt.mpr h7
  have c8a : ¬(r.height_cm < 0) := not_lt.mpr h8
  have c9a : ¬(is_valid_iso8601_date r.ship_date = false) := by simp [h9]
  refine ⟨?_, fun b => rfl⟩
  simp only [validate_record, if_neg c1, if_neg c2, if_neg c3, if_neg c4, if_neg c5,
    if_neg c6a, if_neg c7a, if_neg c8a, if_neg c9a]
  by_cases hs : 0 < r.status.length ∧ status_matches r.status = false
  · rw [if_pos hs]
    simp only [statusAcceptedAmended]
    constructor
    · intro hcontra; simp at hcontra
    · rintro (he | hm)
      · have : r.status.length = 0 := by simp [he]
        omega
      · have := (status_matches_iff r.status).mpr hm
        rw [hs.2] at this
        exact absurd this (by simp)
  · rw [if_neg hs]
    simp only [statusAcceptedAmended]
    constructor
    · intro _
      push_neg at hs
      by_cases hlen : r.status.length = 0
      · exact Or.inl (by simpa using hlen)
      · refine Or.inr ((status_matches_iff r.status).mp ?_)
        have := hs (by omega)
        simpa using this
    · intro _; trivial

/-- Witness for `c6_amended` at the concrete `PENDING` record. -/
theorem c6_witness :
    earlier_checks_pass upperStatusRec ∧
    (validate_record upperStatusRec = none ↔ statusAcceptedAmended upperStatusRec.status) :=
  ⟨by decide, (c6_amended upperStatusRec (by decide)).1⟩

/-! ## Helper lemmas: server -/

/-- An environment whose store always succeeds. -/
def envOk : DbEnv := ⟨fun _ => true, fun _ => true⟩

/-- An environment whose bulk executes always fail (all 5 attempts). -/
def envFail : DbEnv := ⟨fun _ => false, fun _ => false⟩

theorem flush_batches_progress (env : DbEnv) (ctx : RequestContext) :
    (flush_batches env ctx).1.progress = ctx.progress := by
  simp only [flush_batches]
  split_ifs <;> rfl

theorem flush_batches_ops_last (env : DbEnv) (ctx : RequestContext) :
    ((flush_batches env ctx).2).getLast? =
      some (DbOp.upsertProgress (flush_batches env ctx).1.progress) := by
  simp only [flush_batches]
  split_ifs <;> simp

theorem on_record_parsed_progress (env : DbEnv) (r : ShipmentRecord) (ctx : RequestContext) :
    (on_record_parsed env r ctx).1.progress.processed_rows
        = ctx.progress.processed_rows + 1 ∧
    (on_record_parsed env r ctx).1.progress.total_rows
        = ctx.progress.total_rows + 1 ∧
    ((on_record_parsed env r ctx).1.progress.valid_rows = ctx.progress.valid_rows + 1 ∧
     (on_record_parsed env r ctx).1.progress.invalid_rows = ctx.progress.invalid_rows
     ∨
     (on_record_parsed env r ctx).1.progress.valid_rows = ctx.progress.valid_rows ∧
     (on_record_parsed env r ctx).1.progress.invalid_rows = ctx.progress.invalid_rows + 1) := by
  simp only [on_record_parsed]
  cases hv : validate_record r <;>
    split_ifs <;>
    simp [flush_batches_progress]

/-! ## C10: progress counter invariants -/

abbrev counters_ok (p : BatchProgress) : Prop :=
  p.processed_rows = p.valid_rows + p.invalid_rows ∧
  p.processed_rows ≤ p.total_rows

/-- C10 (confirmed): each parsed row increments `processed_rows` and
`total_rows` and exactly one of `valid_rows` / `invalid_rows`; parser
errors and flushes leave the counters unchanged; consequently
`processed_rows = valid_rows + invalid_rows` and
`processed_rows ≤ total_rows` hold at every observable snapshot (after
any event sequence from the zeroed initial context, hence in every
progress document a flush upserts). -/
theorem c10_counters :
    (∀ env r ctx,
       (on_record_parsed env r ctx).1.progress.processed_rows
           = ctx.progress.processed_rows + 1 ∧
       (on_record_parsed env r ctx).1.progress.total_rows
           = ctx.progress.total_rows + 1 ∧
       ((on_record_parsed env r ctx).1.progress.valid_rows = ctx.progress.valid_rows + 1 ∧
        (on_record_parsed env r ctx).1.progress.invalid_rows = ctx.progress.invalid_rows
        ∨
        (on_record_parsed env r ctx).1.progress.valid_rows = ctx.progress.valid_rows ∧
        (on_record_parsed env r ctx).1.progress.invalid_rows
            = ctx.progress.invalid_rows + 1)) ∧
    (∀ env ctx evs, counters_ok ctx.progress →
       counters_ok ((apply_parser_events env ctx evs).1.progress)) ∧
    counters_ok (upload_init []).1.progress := by
  refine ⟨on_record_parsed_progress, ?_, by decide⟩
  intro env ctx evs
  induction evs generalizing ctx with
  | nil => intro h; simpa [apply_parser_events] using h
  | cons e rest ih =>
    intro h
    cases e with
    | record r =>
        have hs := on_record_parsed_progress env r ctx
        have : counters_ok (on_record_parsed env r ctx).1.progress := by
          obtain ⟨hp, ht, hvi⟩ := hs
          rcases hvi with ⟨hv, hi⟩ | ⟨hv, hi⟩ <;>
            exact ⟨by omega, by omega⟩
        simpa [apply_parser_events] using ih _ this
    | err row kind =>
        have : counters_ok (on_parser_error row kind ctx).progress := by
          simpa [on_parser_error] using h
        simpa [apply_parser_events] using ih _ this

/-- Witness for `c10_counters` at a concrete context and event list. -/
theorem c10_witness :
    counters_ok (upload_init []).1.progress ∧
    counters_ok ((apply_parser_events envOk (upload_init []).1
        [PEvent.record goodRec, PEvent.err 2 ParseErrKind.invalidFormat]).1.progress) :=
  ⟨by decide, c10_counters.2.1 envOk (upload_init []).1 _ (by decide)⟩

/-! ## C4: structural parser errors -/

/-- Chunk with a valid first row and a structurally broken second row. -/
def c4chunkA : List Char := dataLine ++ badLine

/-- Chunk whose FIRST logical row is structurally broken. -/
def c4chunkB : List Char := badLine ++ dataLine

/-- C4 counterexample: a structural failure on row 2 is neither
recorded as a validation error (no error-insert op ever appears in the
store log, the error buffer stays empty) nor counted in
`invalid_rows`; and an unparseable FIRST row does not make the upload
fail — the response is HTTP 200, not 400. -/
theorem c4_counterexample :
    (upload_run envOk [] [c4chunkA]).1.progress.invalid_rows = 0 ∧
    errInsertOps (upload_run envOk [] [c4chunkA]).2.1 = [] ∧
    (upload_run envOk [] [c4chunkB]).2.2 = 200 ∧
    (upload_run envOk [] [c4chunkB]).1.progress.invalid_rows = 0 := by
  refine ⟨by with_unfolding_all decide, by with_unfolding_all decide,
    by with_unfolding_all decide, by with_unfolding_all decide⟩

/-- C4 (amended): `on_parser_error` only writes 400 into the unused
`status_code` field — the progress counters, the record buffer and the
error buffer are untouched, the stream continues, and NO validation
error with field "(row)" exists anywhere in the code; the upload
response is HTTP 200 regardless of structural errors, even on the first
logical row. -/
theorem c4_amended :
    (∀ row kind ctx, (on_parser_error row kind ctx).status_code = 400 ∧
       (on_parser_error row kind ctx).progress = ctx.progress ∧
       (on_parser_error row kind ctx).error_batch = ctx.error_batch ∧
       (on_parser_error row kind ctx).record_batch = ctx.record_batch ∧
       (on_parser_error row kind ctx).parser = ctx.parser) ∧
    (∀ env batch chunks, (upload_run env batch chunks).2.2 = 200) :=
  ⟨fun _ _ _ => ⟨rfl, rfl, rfl, rfl, rfl⟩, fun _ _ _ => rfl⟩

/-! ## C3: flush failure handling -/

/-- A context holding one validated record, as after one good row. -/
def c3ctx : RequestContext := (on_record_parsed envFail goodRec (upload_init []).1).1

/-- C3 counterexample: with every bulk-execute failing, the final flush
records a failed insert, yet the progress upserted by the finish
handler has status `complete` (never `failed`), and the context keeps
accepting records afterwards. -/
theorem c3_counterexample :
    recInsertResults (upload_finish envFail c3ctx).2.1 = [false] ∧
    upsertStatuses (upload_finish envFail c3ctx).2.1 = [BatchStatusE.complete] ∧
    (on_record_parsed envFail goodRec (upload_finish envFail c3ctx).1).1.record_batch.length
      = 1 := by
  refine ⟨by decide, by decide, by decide⟩

/-- C3 (amended): flushing never changes the progress (in particular it
never sets status `failed`, which no code path ever assigns); the
upload-finish handler sets status `complete` BEFORE the final flush, so
the progress document upserted last always carries `complete` even when
the bulk insert failed all 5 attempts; and the pipeline keeps accepting
records afterwards (each later parsed row still bumps the counters). -/
theorem c3_amended :
    (∀ env ctx, (flush_batches env ctx).1.progress = ctx.progress) ∧
    (∀ env ctx, (upload_finish env ctx).1.progress.status = BatchStatusE.complete) ∧
    (∀ env ctx, ((upload_finish env ctx).2.1).getLast? =
        some (DbOp.upsertProgress (upload_finish env ctx).1.progress)) ∧
    (∀ env r ctx, (on_record_parsed env r ctx).1.progress.processed_rows =
        ctx.progress.processed_rows + 1) := by
  refine ⟨flush_batches_progress, ?_, ?_, ?_⟩
  · intro env ctx
    show (flush_batches env _).1.progress.status = _
    rw [flush_batches_progress]
  · intro env ctx
    show (([] : List DbOp) ++ (flush_batches env _).2).getLast? = _
    rw [List.nil_append]
    exact flush_batches_ops_last env _
  · intro env r ctx
    exact (on_record_parsed_progress env r ctx).1

/-! ## Helper lemmas: export reader -/

/-- Bytes still owed by the overflow buffer. -/
def pendingRem : Option (List Char × Nat) → List Char
  | some (p, off) => p.drop off
  | none => []

/-- Bytes still owed by the remaining cursor documents. -/
def bodyRem (is_csv first_record : Bool) (docs : List (List Char)) : List Char :=
  if is_csv then (docs.map (fun d => d ++ ['\n'])).flatten
  else if first_record then jsonBody docs
  else (docs.map (fun d => ',' :: d)).flatten

/-- Bytes still owed after the cursor loop returns `r`. -/
def loopRem (is_csv : Bool) (r : LoopOut) : List Char :=
  if r.finished then []
  else pendingRem r.pending ++ bodyRem is_csv r.first_record r.docs ++
    (if is_csv = false ∧ r.footer_processed = false then [']'] else [])

/-- Bytes the reader still owes from state `s`. -/
def remOutput (s : ExportState) : List Char :=
  if s.finished then []
  else (if s.is_csv = false ∧ s.first_record = true then ['['] else []) ++
    pendingRem s.pending ++ bodyRem s.is_csv s.first_record s.docs ++
    (if s.is_csv = false ∧ s.footer_processed = false then [']'] else [])

/-- Reachable-state invariant of the export reader. -/
def ExportInv (s : ExportState) : Prop :=
  (∀ p off, s.pending = some (p, off) → off < p.length ∧ s.first_record = false) ∧
  (s.footer_processed = true → s.finished = true) ∧
  (s.finished = true → s.pending = none ∧ s.docs = [])

theorem bodyRem_nil (is_csv fr : Bool) : bodyRem is_csv fr [] = [] := by
  cases is_csv <;> cases fr <;> simp [bodyRem, jsonBody]

theorem bodyRem_cons (is_csv fr : Bool) (d : List Char) (rest : List (List Char)) :
    bodyRem is_csv fr (d :: rest) =
      ((if is_csv = false ∧ fr = false then [','] else []) ++ d ++
        (if is_csv then ['\n'] else [])) ++ bodyRem is_csv false rest := by
  cases is_csv <;> cases fr <;> simp [bodyRem, jsonBody]

theorem exportLoop_nil (is_csv : Bool) (max : Nat) (fr fp : Bool) (out : List Char) :
    exportLoop is_csv max [] fr fp out =
      if out.length < max then
        (if is_csv = false then
          (if fp = false then
            (if out.length < max then (⟨out ++ [']'], [], none, fr, true, true⟩ : LoopOut)
             else ⟨out, [], some ([']'], 0), fr, false, true⟩)
           else ⟨out, [], none, fr, true, true⟩)
         else ⟨out, [], none, fr, true, fp⟩)
      else ⟨out, [], none, fr, false, fp⟩ := by
  rw [exportLoop]

theorem exportLoop_cons (is_csv : Bool) (max : Nat) (d : List Char)
    (rest : List (List Char)) (fr fp : Bool) (out : List Char) :
    exportLoop is_csv max (d :: rest) fr fp out =
      if out.length < max then
        (if out.length +
            ((if is_csv = false ∧ fr = false then [','] else []) ++ d ++
              (if is_csv then ['\n'] else [])).length ≤ max then
           exportLoop is_csv max rest false fp
             (out ++ ((if is_csv = false ∧ fr = false then [','] else []) ++ d ++
               (if is_csv then ['\n'] else [])))
         else
           ⟨out ++ ((if is_csv = false ∧ fr = false then [','] else []) ++ d ++
               (if is_csv then ['\n'] else [])).take (max - out.length), rest,
             some ((if is_csv = false ∧ fr = false then [','] else []) ++ d ++
               (if is_csv then ['\n'] else []), max - out.length), false, false, fp⟩)
      else ⟨out, (d :: rest), none, fr, false, fp⟩ := by
  rw [exportLoop]

/-- Everything `exportLoop` guarantees when entered with an empty
overflow buffer and `footer_processed = false`. -/
def LoopSpec (is_csv : Bool) (docs : List (List Char)) (first_record : Bool)
    (out : List Char) (r : LoopOut) : Prop :=
  (r.out ++ loopRem is_csv r =
      out ++ bodyRem is_csv first_record docs ++ (if is_csv = false then [']'] else [])) ∧
  (r.finished = false → r.first_record = false ∧ r.footer_processed = false) ∧
  (∀ p off, r.pending = some (p, off) → off < p.length) ∧
  (r.footer_processed = true → r.finished = true) ∧
  (r.finished = true → r.pending = none ∧ r.docs = [])

theorem exportLoop_spec (is_csv : Bool) (max : Nat) :
    ∀ (docs : List (List Char)) (first_record : Bool) (out : List Char),
      (first_record = true → out.length < max) →
      LoopSpec is_csv docs first_record out
        (exportLoop is_csv max docs first_record false out) := by
  intro docs
  induction docs with
  | nil =>
    intro first_record out hfr
    rw [exportLoop_nil]
    by_cases h1 : out.length < max
    · rw [if_pos h1]
      cases hc : is_csv
      · simp only [if_pos rfl, if_pos h1]
        refine ⟨?_, by simp, by simp, by simp, by simp⟩
        simp [loopRem, bodyRem_nil, pendingRem]
      · simp only [if_neg (by simp : ¬((true:Bool) = false))]
        refine ⟨?_, by simp, by simp, by simp, by simp⟩
        simp [loopRem, bodyRem_nil, pendingRem]
    · rw [if_neg h1]
      have hfr' : first_record = false := by
        cases hx : first_record
        · rfl
        · exact absurd (hfr hx) h1
      refine ⟨?_, by simp [hfr'], by simp, by simp, by simp⟩
      simp [loopRem, bodyRem_nil, pendingRem]
  | cons d rest ih =>
    intro first_record out hfr
    rw [exportLoop_cons]
    by_cases h1 : out.length < max
    · rw [if_pos h1]
      by_cases h2 : out.length +
          ((if is_csv = false ∧ first_record = false then [','] else []) ++ d ++
            (if is_csv then ['\n'] else [])).length ≤ max
      · rw [if_pos h2]
        have hspec := ih false
          (out ++ ((if is_csv = false ∧ first_record = false then [','] else []) ++ d ++
            (if is_csv then ['\n'] else []))) (by intro h; cases h)
        refine ⟨?_, hspec.2.1, hspec.2.2.1, hspec.2.2.2.1, hspec.2.2.2.2⟩
        rw [hspec.1, bodyRem_cons]
        simp
      · rw [if_neg h2]
        refine ⟨?_, by simp, ?_, by simp, by simp⟩
        · simp only [loopRem, pendingRem]
          rw [if_neg (by simp : ¬(false = true))]
          rw [bodyRem_cons]
          have hx : ∀ (x z : List Char) (n : Nat),
              List.take n x ++ (List.drop n x ++ z) = x ++ z := by
            intro x z n
            rw [← List.append_assoc, List.take_append_drop]
          simp only [List.append_assoc, hx]
          simp
        · intro p off hpo
          injection hpo with hpo1
          obtain ⟨hp1, hp2⟩ := Prod.mk.injEq .. |>.mp hpo1.symm
          subst hp1
          omega
    · rw [if_neg h1]
      have hfr' : first_record = false := by
        cases hx : first_record
        · rfl
        · exact absurd (hfr hx) h1
      refine ⟨?_, by simp [hfr'], by simp, by simp, by simp⟩
      simp [loopRem, pendingRem]

theorem remOutput_applyLoop (s : ExportState) (r : LoopOut)
    (h2 : r.finished = false → r.first_record = false) :
    remOutput (applyLoop s r) = loopRem s.is_csv r := by
  cases hf : r.finished
  · have hfr := h2 hf
    simp [remOutput, applyLoop, loopRem, hf, hfr]
  · simp [remOutput, applyLoop, loopRem, hf]

theorem inv_applyLoop (s : ExportState) (r : LoopOut)
    (h2 : r.finished = false → r.first_record = false ∧ r.footer_processed = false)
    (h3 : ∀ p off, r.pending = some (p, off) → off < p.length)
    (h4 : r.footer_processed = true → r.finished = true)
    (h5 : r.finished = true → r.pending = none ∧ r.docs = []) :
    ExportInv (applyLoop s r) := by
  refine ⟨?_, ?_, ?_⟩
  · intro p off hpo
    simp only [applyLoop] at hpo
    have hoff := h3 p off hpo
    cases hf : r.finished
    · exact ⟨hoff, by simp [applyLoop, (h2 hf).1]⟩
    · exact absurd hpo (by simp [(h5 hf).1])
  · intro hfp
    simp only [applyLoop] at hfp ⊢
    exact h4 hfp
  · intro hf
    simp only [applyLoop] at hf ⊢
    exact h5 hf

theorem read_chunk_step (s : ExportState) (max : Nat)
    (hInv : ExportInv s) (hfin : s.finished = false) (hmax : 2 ≤ max) :
    ∃ c s1, db_read_export_chunk s max = (some c, s1) ∧
      c ++ remOutput s1 = remOutput s ∧ ExportInv s1 ∧ s1.is_csv = s.is_csv := by
  obtain ⟨hpend, hfoot, hfin2⟩ := hInv
  have hfp : s.footer_processed = false := by
    cases hx : s.footer_processed
    · rfl
    · rw [hfoot hx] at hfin; cases hfin
  have h0 : 0 < max := by omega
  rw [db_read_export_chunk, if_neg (by simp [hfin])]
  cases hp : s.pending with
  | none =>
    have hlen0 :
        (if s.is_csv = false ∧ s.first_record = true ∧ 0 < max then ['['] else ([]:List Char)).length
          < max := by
      split_ifs <;> simp only [List.length_cons, List.length_nil] <;> omega
    have hspec := exportLoop_spec s.is_csv max s.docs s.first_record
      (if s.is_csv = false ∧ s.first_record = true ∧ 0 < max then ['['] else [])
      (fun _ => hlen0)
    simp only [hfp]
    refine ⟨_, _, rfl, ?_, ?_, rfl⟩
    · rw [remOutput_applyLoop s _ (fun hf => (hspec.2.1 hf).1), hspec.1]
      simp only [remOutput, hfin, hp, hfp, pendingRem, h0, and_true, if_false,
        Bool.false_eq_true, List.append_nil, List.nil_append, and_false, not_false_eq_true]
    · exact inv_applyLoop s _ hspec.2.1 hspec.2.2.1 hspec.2.2.2.1 hspec.2.2.2.2
  | some po =>
    obtain ⟨p, off⟩ := po
    obtain ⟨hoff, hfr⟩ := hpend p off hp
    have hout0 :
        (if s.is_csv = false ∧ s.first_record = true ∧ 0 < max then ['['] else ([]:List Char))
          = [] := by
      rw [if_neg]; simp [hfr]
    simp only [hout0, hfp, List.nil_append, List.length_nil, Nat.sub_zero]
    by_cases hfit : p.length - off ≤ max
    · rw [if_pos hfit]
      have hspec := exportLoop_spec s.is_csv max s.docs s.first_record (p.drop off)
        (fun hx => absurd hx (by simp [hfr]))
      refine ⟨_, _, rfl, ?_, ?_, rfl⟩
      · rw [remOutput_applyLoop s _ (fun hf => (hspec.2.1 hf).1), hspec.1]
        simp only [remOutput, hfin, hp, hfp, hfr, pendingRem,
          Bool.false_eq_true, if_false, and_false, List.nil_append]
        simp
      · exact inv_applyLoop s _ hspec.2.1 hspec.2.2.1 hspec.2.2.2.1 hspec.2.2.2.2
    · rw [if_neg hfit]
      refine ⟨_, _, rfl, ?_, ?_, rfl⟩
      · simp only [remOutput, hfin, hp, hfr, hfp, pendingRem,
          Bool.false_eq_true, if_false, and_false, List.nil_append]
        have hdd : List.drop max (List.drop off p) = List.drop (off + max) p := by
          rw [List.drop_drop]
          try rw [Nat.add_comm off max]
        have hx : ∀ z : List Char,
            List.take max (List.drop off p) ++ (List.drop (off + max) p ++ z) =
              List.drop off p ++ z := by
          intro z
          rw [← hdd, ← List.append_assoc, List.take_append_drop]
        simp only [List.append_assoc, hx]
      · refine ⟨?_, by simp [hfp], by simp [hfin]⟩
        intro q qoff hq
        simp only [Option.some.injEq, Prod.mk.injEq] at hq
        obtain ⟨rfl, rfl⟩ := hq
        exact ⟨by omega, hfr⟩

theorem runReads_spec (sizes : List Nat) :
    ∀ s : ExportState, ExportInv s → (∀ m ∈ sizes, 2 ≤ m) →
      (runReads s sizes).1.flatten ++ remOutput (runReads s sizes).2 = remOutput s ∧
      ExportInv (runReads s sizes).2 := by
  induction sizes with
  | nil =>
    intro s h _
    exact ⟨by simp [runReads], by simpa [runReads] using h⟩
  | cons m ms ih =>
    intro s hInv hs
    cases hfin : s.finished
    · obtain ⟨c, s1, heq, hcat, hInv1, _⟩ :=
        read_chunk_step s m hInv hfin (hs m (by simp))
      have hih := ih s1 hInv1 (fun x hx => hs x (by simp [hx]))
      rw [runReads, heq]
      refine ⟨?_, by simpa using hih.2⟩
      simp only [List.flatten_cons, List.append_assoc]
      rw [hih.1]
      exact hcat
    · have heq : db_read_export_chunk s m = (none, s) := by
        rw [db_read_export_chunk, if_pos (by simp [hfin])]
      rw [runReads, heq]
      exact ⟨by simp, hInv⟩

/-! ## C1: export stream concatenation -/

/-- C1 counterexample: with buffer sizes of 1, the JSON export emits
the opening `'['` on EVERY call until a document is pulled
(`first_record` never clears), so the concatenated stream contains two
opening brackets after two reads, while the canonical rendering
contains exactly one. -/
theorem c1_counterexample :
    ((runReads (db_open_export_cursor false [['x']]) [1, 1]).1.flatten).count '[' = 2 ∧
    (canonicalExport false [['x']]).count '[' = 1 := by
  refine ⟨by decide, by decide⟩

/-- C1 (amended): provided every `read` call supplies a buffer of at
least 2 bytes, the concatenation of the returned chunks over a stream
driven to completion equals the canonical single-buffer rendering —
for JSON exactly one `'['`, the cursor documents comma-separated, one
`']'`; for CSV each cursor document's rendered bytes terminated by a
line feed, in cursor order.  (With a 1-byte buffer the JSON header
duplicates, as the counterexample shows.) -/
theorem c1_amended_concat (is_csv : Bool) (docs : List (List Char)) (sizes : List Nat)
    (hs : ∀ m ∈ sizes, 2 ≤ m)
    (hfin : (runReads (db_open_export_cursor is_csv docs) sizes).2.finished = true) :
    (runReads (db_open_export_cursor is_csv docs) sizes).1.flatten =
      canonicalExport is_csv docs := by
  have hInv0 : ExportInv (db_open_export_cursor is_csv docs) := by
    refine ⟨?_, ?_, ?_⟩ <;> simp [db_open_export_cursor]
  have h := runReads_spec sizes (db_open_export_cursor is_csv docs) hInv0 hs
  have hrem0 : remOutput (db_open_export_cursor is_csv docs) =
      canonicalExport is_csv docs := by
    cases is_csv <;>
      simp [remOutput, db_open_export_cursor, pendingRem, bodyRem, canonicalExport]
  have hremF : remOutput (runReads (db_open_export_cursor is_csv docs) sizes).2 = [] := by
    rw [remOutput, if_pos (by simp [hfin])]
  rw [← hrem0, ← h.1, hremF]
  simp

/-- Witness for `c1_amended_concat`: a one-document JSON batch read
with two 5-byte buffers. -/
theorem c1_witness :
    (∀ m ∈ [(5:Nat), 5], 2 ≤ m) ∧
    (runReads (db_open_export_cursor false [['a']]) [5, 5]).2.finished = true ∧
    (runReads (db_open_export_cursor false [['a']]) [5, 5]).1.flatten =
      canonicalExport false [['a']] :=
  ⟨by decide, by decide, c1_amended_concat false [['a']] [5, 5] (by decide) (by decide)⟩

/-! ## C7: CSV export rendering -/

/-- C7 (code bug): db.c line 668 renders every cursor document with
`bson_as_relaxed_extended_json` irrespective of `is_csv`; in CSV mode
the chunk written for a document is exactly that JSON rendering
followed by a line feed — not the nine field values in fixed column
order.  Here `j` stands for the relaxed-extended-JSON bytes of one
stored document: a single large-buffer read returns `j ++ "\x0a"` in
CSV mode, and the very same `j` (wrapped in brackets) in JSON mode. -/
theorem c7_csv_renders_relaxed_json (j : List Char) :
    (db_read_export_chunk (db_open_export_cursor true [j]) (j.length + 2)).1 =
      some (j ++ ['\n']) ∧
    (db_read_export_chunk (db_open_export_cursor false [j]) (j.length + 2)).1 =
      some (['['] ++ j ++ [']']) := by
  constructor
  · rw [db_read_export_chunk]
    rw [if_neg (by simp [db_open_export_cursor])]
    simp only [db_open_export_cursor]
    rw [exportLoop_cons]
    simp only [List.length_nil, List.nil_append]
    norm_num
    rw [exportLoop_nil]
    rw [if_pos (by simp [List.length_append])]
    simp
  · rw [db_read_export_chunk]
    rw [if_neg (by simp [db_open_export_cursor])]
    simp only [db_open_export_cursor]
    rw [exportLoop_cons]
    simp only [List.length_cons, List.length_nil]
    norm_num
    rw [if_pos (by omega)]
    rw [exportLoop_nil]
    rw [if_pos (by simp [List.length_cons])]
    simp

end Pipeline
